import Mathlib

/-
Verification of the offset-resolution and accessor-broadcast engine of the
deck.gl-geoarrow layers.  The definitions below are a shallow embedding of
the TypeScript source files (`src/utils.ts` as concatenated into
`src/arc-layer.ts`, and `src/solid-polygon-layer.ts`).  JavaScript typed
arrays are modelled as a list of integer values together with an element-kind
tag; a typed-array write out of bounds is a silent no-op (as in JS), which is
exactly the behaviour of `List.set`.  Offsets arrays (`Int32Array` in the
source) are modelled as `List Nat`: every claim concerns well-formed offsets
arrays, whose entries are non-negative.
-/

namespace GeoArrowSpec

/-- Element kinds of the JavaScript typed arrays used by the source
(`TypedArray` union in `src/utils.ts`). -/
inductive TAKind where
  | u8
  | u8c
  | u16
  | u32
  | i8
  | i16
  | i32
  | f32
  | f64
deriving DecidableEq, Repr

/-- Bit width of the integer element kinds (the float kinds report their
storage width, which no claim depends on). -/
def TAKind.width : TAKind → Nat
  | .u8 => 8
  | .u8c => 8
  | .u16 => 16
  | .u32 => 32
  | .i8 => 8
  | .i16 => 16
  | .i32 => 32
  | .f32 => 32
  | .f64 => 64

/-- Clamping performed by `Uint8ClampedArray` on store. -/
def clampByte (v : Int) : Int := max 0 (min 255 v)

/-- The value conversion JavaScript applies when storing a number into a
typed array: unsigned kinds wrap modulo 2^w, `Uint8ClampedArray` clamps,
signed kinds wrap into the signed range.  Float kinds keep the numeric value
(float rounding is not modelled; no claim computes with float values). -/
def TAKind.store : TAKind → Int → Int
  | .u8, v => v % 256
  | .u8c, v => clampByte v
  | .u16, v => v % 65536
  | .u32, v => v % 4294967296
  | .i8, v => (v + 128) % 256 - 128
  | .i16, v => (v + 32768) % 65536 - 32768
  | .i32, v => (v + 2147483648) % 4294967296 - 2147483648
  | .f32, v => v
  | .f64, v => v

/-- A JavaScript typed array: an element kind plus its contents. -/
structure TypedArray where
  kind : TAKind
  data : List Int
deriving DecidableEq, Repr

/-- A typed array is valid when every stored value is representable in its
element kind (true of every real JavaScript typed array: values are converted
on store, so a `Uint8Array` never holds 300). -/
def TypedArray.Valid (a : TypedArray) : Prop :=
  ∀ v ∈ a.data, a.kind.store v = v

/-- Indexed read `a[i]`.  All reads performed by the claims are in bounds;
the default 0 also matches JS storing `undefined` into an integer array. -/
def TypedArray.read (a : TypedArray) (i : Nat) : Int :=
  a.data.getD i 0

/-- An unsigned typed array (`Uint8Array | Uint16Array | Uint32Array`), the
return type of `invertOffsets`; contents are naturals. -/
structure UIntArray where
  kind : TAKind
  data : List Nat
deriving DecidableEq, Repr

/-- Fuel-counted loop body: `fillGo f n p arr` runs `arr = f arr q` for
`q = p, p+1, ..., p+n-1`. -/
def fillGo {α : Type} (f : List α → Nat → List α) : Nat → Nat → List α → List α
  | 0, _, arr => arr
  | n + 1, p, arr => fillGo f n (p + 1) (f arr p)

/-- The JavaScript loop `for (let q = lo; q < hi; q++) arr = f arr q`. -/
def fillLoop {α : Type} (f : List α → Nat → List α) (lo hi : Nat)
    (arr : List α) : List α :=
  fillGo f (hi - lo) lo arr

/-- Embedding of `expandArrayToCoords` (src/utils.ts).  Source:
`numCoords = geomOffsets[geomOffsets.length - 1]`, allocate
`new input.constructor(numCoords * size)` (zero-filled, same constructor as
the input), then for each `geomIdx`, for each `coordIdx` in
`[geomOffsets[geomIdx], geomOffsets[geomIdx+1])`, for each channel `i`,
store `input[geomIdx*size + i]` at `coordIdx*size + i`. -/
def expandArrayToCoords (input : TypedArray) (size : Nat)
    (geomOffsets : List Nat) : TypedArray :=
  let numCoords := geomOffsets.getD (geomOffsets.length - 1) 0
  { kind := input.kind
    data :=
      fillLoop
        (fun arr geomIdx =>
          fillLoop
            (fun arr2 coordIdx =>
              fillLoop
                (fun arr3 i =>
                  arr3.set (coordIdx * size + i)
                    (input.kind.store (input.read (geomIdx * size + i))))
                0 size arr2)
            (geomOffsets.getD geomIdx 0) (geomOffsets.getD (geomIdx + 1) 0)
            arr)
        0 (geomOffsets.length - 1)
        (List.replicate (numCoords * size) 0) }

/-- Constructor selection of `invertOffsets` (src/utils.ts): compares
`offsets.length` against 2^8 and 2^16. -/
def invertKind (offsets : List Nat) : TAKind :=
  if offsets.length < 2 ^ 8 then .u8
  else if offsets.length < 2 ^ 16 then .u16
  else .u32

/-- Embedding of `invertOffsets` (src/utils.ts): allocate an unsigned array
of length `offsets[offsets.length - 1]` and, for each `arrayIdx`, write
`arrayIdx` into every slot of `[offsets[arrayIdx], offsets[arrayIdx+1])`.
The stored value wraps modulo the chosen element width, as a JS typed-array
store does. -/
def invertOffsets (offsets : List Nat) : UIntArray :=
  let largestOffset := offsets.getD (offsets.length - 1) 0
  let w := (invertKind offsets).width
  { kind := invertKind offsets
    data :=
      fillLoop
        (fun arr arrayIdx =>
          fillLoop (fun arr2 off => arr2.set off (arrayIdx % 2 ^ w))
            (offsets.getD arrayIdx 0) (offsets.getD (arrayIdx + 1) 0) arr)
        0 (offsets.length - 1)
        (List.replicate largestOffset 0) }

/-- Embedding of `encodePickingColors` (src/solid-polygon-layer.ts).  The
source allocates `new Uint8ClampedArray(largestOffset)` — the length is
`largestOffset`, not `3 * largestOffset` — then for each feature computes the
picking color once and stores its three bytes at `offset*3`, `offset*3 + 1`,
`offset*3 + 2` for every `offset` in the feature's coordinate range; writes
past the end of the buffer are silently dropped, as for any JS typed array. -/
def encodePickingColors (geomToCoordOffsets : List Nat)
    (encodePickingColor : Nat → Int × Int × Int) : TypedArray :=
  let largestOffset := geomToCoordOffsets.getD (geomToCoordOffsets.length - 1) 0
  { kind := .u8c
    data :=
      fillLoop
        (fun arr arrayIdx =>
          let c := encodePickingColor arrayIdx
          fillLoop
            (fun arr2 off =>
              ((arr2.set (off * 3) (TAKind.u8c.store c.1)).set (off * 3 + 1)
                  (TAKind.u8c.store c.2.1)).set (off * 3 + 2)
                (TAKind.u8c.store c.2.2))
            (geomToCoordOffsets.getD arrayIdx 0)
            (geomToCoordOffsets.getD (arrayIdx + 1) 0) arr)
        0 (geomToCoordOffsets.length - 1)
        (List.replicate largestOffset 0) }

/-- Embedding of `getMultiLineStringResolvedOffsets` (src/utils.ts): a fresh
array of length `geomOffsets.length` with
`resolved[i] = ringOffsets[geomOffsets[i]]`.  An out-of-range JS read yields
`undefined`, stored as 0 in the `Int32Array`, which `getD _ 0` matches. -/
def getMultiLineStringResolvedOffsets (geomOffsets ringOffsets : List Nat) :
    List Nat :=
  (List.range geomOffsets.length).map fun i =>
    ringOffsets.getD (geomOffsets.getD i 0) 0

/-- Embedding of `getPolygonResolvedOffsets` (src/utils.ts); same body as
the multi-line-string resolver. -/
def getPolygonResolvedOffsets (geomOffsets ringOffsets : List Nat) :
    List Nat :=
  (List.range geomOffsets.length).map fun i =>
    ringOffsets.getD (geomOffsets.getD i 0) 0

/-- Embedding of `getMultiPolygonResolvedOffsets` (src/utils.ts):
`resolved[i] = ringOffsets[polygonOffsets[geomOffsets[i]]]`. -/
def getMultiPolygonResolvedOffsets
    (geomOffsets polygonOffsets ringOffsets : List Nat) : List Nat :=
  (List.range geomOffsets.length).map fun i =>
    ringOffsets.getD (polygonOffsets.getD (geomOffsets.getD i 0) 0) 0

/-- A well-formed offsets array: starts with 0 and is non-decreasing. -/
def WfOffsets (offsets : List Nat) : Prop :=
  offsets.head? = some 0 ∧ offsets.Pairwise (· ≤ ·)

/-- The smallest width among 8, 16, 32 bits whose unsigned range contains
`n` (32 when none does); used to state the spec's sizing claim for
`invertOffsets`. -/
def minUIntWidth (n : Nat) : Nat :=
  if n < 2 ^ 8 then 8 else if n < 2 ^ 16 then 16 else 32

/-- The per-chunk data of an accessor column, as far as `assignAccessor`
inspects it: the source tests `arrow.DataType.isFixedSizeList(columnData)`
(keeping the single child's flat values and the list size) and then
`arrow.DataType.isFloat(columnData)`; any other type (an integer column,
for instance) matches neither test. -/
inductive ColumnData where
  | fixedSizeList (listSize : Nat) (childValues : TypedArray)
  | float (values : TypedArray)
  | int (values : TypedArray)
  | other
deriving DecidableEq, Repr

/-- The user-supplied `propInput`: `undefined`, an `arrow.Vector` (a list of
per-chunk data), or any other value (a scalar/constant). -/
inductive PropInput where
  | absent
  | vector (chunks : List ColumnData)
  | scalar (v : Int)
deriving DecidableEq, Repr

/-- An entry of `props.data.attributes`: flat values, a channel count, and
the optional `normalized` flag (`none` when the source does not set it). -/
structure AttributeSpec where
  value : TypedArray
  size : Nat
  normalized : Option Bool
deriving DecidableEq, Repr

/-- The parts of the deck.gl props object that `assignAccessor` mutates:
`props.data.attributes[propName]` and the top-level `props[propName]`. -/
structure LayerProps where
  attributes : List (String × AttributeSpec)
  scalarProps : List (String × Int)
deriving DecidableEq, Repr

/-- Assignment `m[k] = v` on a string-keyed object. -/
def setKey {β : Type} : List (String × β) → String → β → List (String × β)
  | [], k, v => [(k, v)]
  | (k0, v0) :: rest, k, v =>
    if k0 = k then (k, v) :: rest else (k0, v0) :: setKey rest k v

/-- Lookup `m[k]` on a string-keyed object. -/
def getKey {β : Type} : List (String × β) → String → Option β
  | [], _ => none
  | (k0, v0) :: rest, k => if k0 = k then some v0 else getKey rest k

/-- Embedding of `assignAccessor` (src/utils.ts).  `propInput === undefined`
is a no-op; an `arrow.Vector` input selects `propInput.data[chunkIdx]` and
dispatches on its type (a fixed-size list assigns its child values with
`size = listSize` and `normalized: true`, a float column assigns its values
with `size = 1`, anything else falls through both branches and assigns
nothing), expanding through `expandArrayToCoords` when `geomCoordOffsets` is
supplied; any other input is assigned directly to `props[propName]`.  An
out-of-range `chunkIdx` yields `undefined`, which matches neither type test,
modelled by the `ColumnData.other` default.  The source's
`assert(columnData.children.length === 1)` is implicit in the model, which
keeps exactly one child per fixed-size list. -/
def assignAccessor (props : LayerProps) (propName : String)
    (propInput : PropInput) (chunkIdx : Nat)
    (geomCoordOffsets : Option (List Nat)) : LayerProps :=
  match propInput with
  | .absent => props
  | .vector chunks =>
    match chunks.getD chunkIdx .other with
    | .fixedSizeList listSize childValues =>
      let values :=
        match geomCoordOffsets with
        | some offs => expandArrayToCoords childValues listSize offs
        | none => childValues
      { props with
          attributes :=
            setKey props.attributes propName ⟨values, listSize, some true⟩ }
    | .float vals =>
      let values :=
        match geomCoordOffsets with
        | some offs => expandArrayToCoords vals 1 offs
        | none => vals
      { props with
          attributes :=
            setKey props.attributes propName ⟨values, 1, none⟩ }
    | .int _ => props
    | .other => props
  | .scalar v =>
    { props with scalarProps := setKey props.scalarProps propName v }

/-- Modelled from the spec: the columnar storage provider's cumulative
per-batch offsets cache (`table._offsets` of apache-arrow, read by
`getPickingInfo`; the provider's code is not part of this repository).  Per
the spec, entry `i` is the cumulative element count of all record batches
preceding batch `i`. -/
def tableOffsetsOf (batchLengths : List Nat) : List Nat :=
  (List.range (batchLengths.length + 1)).map fun i => (batchLengths.take i).sum

/-- Embedding of `getPickingInfo` (src/solid-polygon-layer.ts), restricted to
the returned `index`: the rendered index is first mapped through
`invertedGeomOffsets` when that prop is present, then shifted by
`table._offsets[recordBatchIdx]`. -/
def solidPolygonPickingIndex (infoIndex : Nat)
    (invertedGeomOffsets : Option UIntArray) (tableOffsets : List Nat)
    (recordBatchIdx : Nat) : Nat :=
  let index :=
    match invertedGeomOffsets with
    | some inv => inv.data.getD infoIndex 0
    | none => infoIndex
  index + tableOffsets.getD recordBatchIdx 0

/-- Embedding of `getPickingInfo` (src/arc-layer.ts), restricted to the
returned `index`: the rendered index plus `table._offsets[recordBatchIdx]`
(the arc layer has no inverted-offsets mapping). -/
def arcPickingIndex (infoIndex : Nat) (tableOffsets : List Nat)
    (recordBatchIdx : Nat) : Nat :=
  infoIndex + tableOffsets.getD recordBatchIdx 0

instance (O : List Nat) : Decidable (WfOffsets O) := by
  unfold WfOffsets; infer_instance

instance (a : TypedArray) : Decidable a.Valid := by
  unfold TypedArray.Valid; infer_instance

theorem getD_set_eq {α : Type} (l : List α) (i : Nat) (a d : α)
    (h : i < l.length) : (l.set i a).getD i d = a := by
  simp [List.getD_eq_getElem?_getD, List.getElem?_set_self h]

theorem getD_set_ne {α : Type} (l : List α) {i j : Nat} (a d : α)
    (h : i ≠ j) : (l.set i a).getD j d = l.getD j d := by
  simp [List.getD_eq_getElem?_getD, List.getElem?_set_ne h]

theorem fillGo_invariant {α : Type} {P : List α → Prop}
    (f : List α → Nat → List α) (n p : Nat) (arr : List α)
    (hstep : ∀ a q, p ≤ q → q < p + n → P a → P (f a q)) (h0 : P arr) :
    P (fillGo f n p arr) := by
  induction n generalizing p arr with
  | zero => exact h0
  | succ n ih =>
    exact ih (p + 1) (f arr p)
      (fun a q hq hq2 h => hstep a q (by omega) (by omega) h)
      (hstep arr p le_rfl (by omega) h0)

theorem fillGo_write {α : Type} {P : List α → Prop}
    (f : List α → Nat → List α) (n : Nat) (q : Nat) (d : α) (p0 : Nat) (v : α)
    (hw : ∀ a, P a → (f a p0).getD q d = v) :
    ∀ (p : Nat) (arr : List α), p ≤ p0 → p0 < p + n →
      (∀ a r, p ≤ r → r < p + n → P a → P (f a r)) → P arr →
      (∀ a r, p0 < r → r < p + n → (f a r).getD q d = a.getD q d) →
      (fillGo f n p arr).getD q d = v := by
  induction n with
  | zero => intro p arr _ hpn _ _ _; omega
  | succ n ih =>
    intro p arr hp hpn hstep h0 hframe
    by_cases hpp : p = p0
    · subst hpp
      exact fillGo_invariant (P := fun a => a.getD q d = v) f n (p + 1)
        (f arr p)
        (fun a r hr hr2 hh => by
          show (f a r).getD q d = v
          rw [hframe a r (by omega) (by omega)]; exact hh)
        (hw arr h0)
    · exact ih (p + 1) (f arr p) (by omega) (by omega)
        (fun a r hr hr2 h => hstep a r (by omega) (by omega) h)
        (hstep arr p le_rfl (by omega) h0)
        (fun a r hr hr2 => hframe a r hr (by omega))

theorem fillLoop_invariant {α : Type} {P : List α → Prop}
    (f : List α → Nat → List α) (lo hi : Nat) (arr : List α)
    (hstep : ∀ a q, lo ≤ q → q < hi → P a → P (f a q)) (h0 : P arr) :
    P (fillLoop f lo hi arr) :=
  fillGo_invariant f (hi - lo) lo arr
    (fun a q hq hq2 h => hstep a q hq (by omega) h) h0

theorem fillLoop_write {α : Type} {P : List α → Prop}
    (f : List α → Nat → List α) (lo hi : Nat) (arr : List α)
    (q : Nat) (d : α) (p0 : Nat) (v : α)
    (hp : lo ≤ p0) (hpn : p0 < hi)
    (hstep : ∀ a r, lo ≤ r → r < hi → P a → P (f a r))
    (h0 : P arr)
    (hw : ∀ a, P a → (f a p0).getD q d = v)
    (hframe : ∀ a r, p0 < r → r < hi → (f a r).getD q d = a.getD q d) :
    (fillLoop f lo hi arr).getD q d = v :=
  fillGo_write f (hi - lo) q d p0 v hw lo arr hp (by omega)
    (fun a r hr hr2 h => hstep a r hr (by omega) h) h0
    (fun a r hr hr2 => hframe a r hr (by omega))

theorem fillLoop_frame {α : Type} (f : List α → Nat → List α)
    (lo hi : Nat) (arr : List α) (q : Nat) (d : α)
    (hf : ∀ a r, lo ≤ r → r < hi → (f a r).getD q d = a.getD q d) :
    (fillLoop f lo hi arr).getD q d = arr.getD q d :=
  fillLoop_invariant (P := fun a => a.getD q d = arr.getD q d) f lo hi arr
    (fun a r h1 h2 h => by
      show (f a r).getD q d = arr.getD q d
      rw [hf a r h1 h2]; exact h) rfl

theorem fillLoop_length {α : Type} (f : List α → Nat → List α)
    (lo hi : Nat) (arr : List α)
    (hf : ∀ a q, lo ≤ q → q < hi → (f a q).length = a.length) :
    (fillLoop f lo hi arr).length = arr.length :=
  fillLoop_invariant (P := fun a => a.length = arr.length) f lo hi arr
    (fun a q h1 h2 h => by
      show (f a q).length = arr.length
      rw [hf a q h1 h2]; exact h) rfl

theorem getD_mono_of_pairwise {O : List Nat} (h : O.Pairwise (· ≤ ·))
    {a b : Nat} (hab : a ≤ b) (hb : b < O.length) :
    O.getD a 0 ≤ O.getD b 0 := by
  rcases Nat.lt_or_ge a b with hlt | hge
  · rw [List.getD_eq_getElem _ _ (by omega), List.getD_eq_getElem _ _ hb]
    exact List.pairwise_iff_getElem.mp h a b (by omega) hb hlt
  · have hab2 : a = b := by omega
    subst hab2; exact le_rfl

theorem WfOffsets.getD_zero {O : List Nat} (h : WfOffsets O) :
    O.getD 0 0 = 0 := by
  rcases O with _ | ⟨x, t⟩
  · rfl
  · have hx := h.1
    simp only [List.head?] at hx
    simpa [List.getD] using Option.some.inj hx

theorem WfOffsets.ne_nil {O : List Nat} (h : WfOffsets O) : O ≠ [] := by
  intro e
  subst e
  simpa using h.1

theorem getD_map_range {α : Type} (f : Nat → α) {n i : Nat} (d : α)
    (h : i < n) : ((List.range n).map f).getD i d = f i := by
  rw [List.getD_eq_getElem?_getD, List.getElem?_map, List.getElem?_range h]
  rfl

theorem getD_mem_of_lt {O : List Nat} {i : Nat} (h : i < O.length) :
    O.getD i 0 ∈ O := by
  rw [List.getD_eq_getElem _ _ h]
  exact List.getElem_mem h

theorem getKey_setKey {β : Type} (m : List (String × β)) (k : String) (v : β) :
    getKey (setKey m k v) k = some v := by
  induction m with
  | nil => simp [setKey, getKey]
  | cons kv rest ih =>
    obtain ⟨k0, v0⟩ := kv
    by_cases h : k0 = k <;> simp [setKey, getKey, h, ih]

set_option maxRecDepth 100000

theorem chanLoop_length (size c2 : Nat) (vals : Nat → Int) (a : List Int) :
    (fillLoop (fun a3 j => a3.set (c2 * size + j) (vals j)) 0 size a).length
      = a.length := by
  apply fillLoop_length
  intro a2 r _ _
  exact List.length_set _ _ _

theorem chanLoop_getD_at (size c : Nat) (vals : Nat → Int) (a : List Int)
    (i : Nat) (hisz : i < size) (hq : c * size + i < a.length) :
    (fillLoop (fun a3 j => a3.set (c * size + j) (vals j)) 0 size a).getD
        (c * size + i) 0 = vals i := by
  refine fillLoop_write (P := fun a2 => a2.length = a.length) _ 0 size a
    (c * size + i) 0 i (vals i) (by omega) hisz ?_ rfl ?_ ?_
  · intro a2 r _ _ h
    rw [List.length_set]
    exact h
  · intro a2 h2
    exact getD_set_eq _ _ _ _ (by rw [h2]; exact hq)
  · intro a2 r hr _
    exact getD_set_ne _ _ _ (by omega)

theorem chanLoop_getD_frame (size c2 c i : Nat) (vals : Nat → Int)
    (a : List Int) (hlt : c < c2) (hisz : i < size) :
    (fillLoop (fun a3 j => a3.set (c2 * size + j) (vals j)) 0 size a).getD
        (c * size + i) 0 = a.getD (c * size + i) 0 := by
  apply fillLoop_frame
  intro a2 r _ hr2
  apply getD_set_ne
  have h1 : (c + 1) * size ≤ c2 * size := Nat.mul_le_mul_right _ (by omega)
  have h2 : (c + 1) * size = c * size + size := by ring
  omega

theorem coordsLoop_length (size lo hi : Nat) (vals : Nat → Int)
    (a : List Int) :
    (fillLoop
        (fun a2 c2 =>
          fillLoop (fun a3 j => a3.set (c2 * size + j) (vals j)) 0 size a2)
        lo hi a).length
      = a.length := by
  apply fillLoop_length
  intro a2 c2 _ _
  exact chanLoop_length size c2 vals a2

theorem coordsLoop_getD_at (size lo hi c i : Nat) (vals : Nat → Int)
    (a : List Int) (hlo : lo ≤ c) (hhi : c < hi) (hisz : i < size)
    (hq : c * size + i < a.length) :
    (fillLoop
        (fun a2 c2 =>
          fillLoop (fun a3 j => a3.set (c2 * size + j) (vals j)) 0 size a2)
        lo hi a).getD (c * size + i) 0
      = vals i := by
  refine fillLoop_write (P := fun a2 => a2.length = a.length) _ lo hi a
    (c * size + i) 0 c (vals i) hlo hhi ?_ rfl ?_ ?_
  · intro a2 r _ _ h
    rw [chanLoop_length]
    exact h
  · intro a2 h2
    exact chanLoop_getD_at size c vals a2 i hisz (by rw [h2]; exact hq)
  · intro a2 c2 hc2 _
    exact chanLoop_getD_frame size c2 c i vals a2 hc2 hisz

theorem coordsLoop_getD_frame (size lo hi c i : Nat) (vals : Nat → Int)
    (a : List Int) (hc : c < lo) (hisz : i < size) :
    (fillLoop
        (fun a2 c2 =>
          fillLoop (fun a3 j => a3.set (c2 * size + j) (vals j)) 0 size a2)
        lo hi a).getD (c * size + i) 0
      = a.getD (c * size + i) 0 := by
  apply fillLoop_frame
  intro a2 c2 hc2 _
  exact chanLoop_getD_frame size c2 c i vals a2 (by omega) hisz

theorem expandArrayToCoords_data_length (input : TypedArray) (size : Nat)
    (R : List Nat) :
    (expandArrayToCoords input size R).data.length
      = R.getD (R.length - 1) 0 * size := by
  simp only [expandArrayToCoords]
  rw [fillLoop_length]
  · simp
  · intro a g _ _
    exact coordsLoop_length size (R.getD g 0) (R.getD (g + 1) 0) _ a

theorem invertOffsets_data_length (O : List Nat) :
    (invertOffsets O).data.length = O.getD (O.length - 1) 0 := by
  simp only [invertOffsets]
  rw [fillLoop_length]
  · simp
  · intro a q _ _
    rw [fillLoop_length]
    intro a2 r _ _
    exact List.length_set _ _ _

theorem invertOffsets_getD (O : List Nat) (hpair : O.Pairwise (· ≤ ·))
    (hlen : O.length < 2 ^ 32) (g : Nat) (hg : g + 1 < O.length)
    (p : Nat) (hp1 : O.getD g 0 ≤ p) (hp2 : p < O.getD (g + 1) 0) :
    (invertOffsets O).data.getD p 0 = g := by
  have hN : p < O.getD (O.length - 1) 0 :=
    lt_of_lt_of_le hp2 (getD_mono_of_pairwise hpair (by omega) (by omega))
  have hgw : g % 2 ^ (invertKind O).width = g := by
    apply Nat.mod_eq_of_lt
    have e8 : (2 : Nat) ^ 8 = 256 := by norm_num
    have e16 : (2 : Nat) ^ 16 = 65536 := by norm_num
    have e32 : (2 : Nat) ^ 32 = 4294967296 := by norm_num
    unfold invertKind
    by_cases h1 : O.length < 2 ^ 8
    · rw [if_pos h1]
      show g < 2 ^ 8
      omega
    · rw [if_neg h1]
      by_cases h2 : O.length < 2 ^ 16
      · rw [if_pos h2]
        show g < 2 ^ 16
        omega
      · rw [if_neg h2]
        show g < 2 ^ 32
        omega
  simp only [invertOffsets]
  refine fillLoop_write
    (P := fun a => a.length = O.getD (O.length - 1) 0) _ 0 (O.length - 1) _
    p 0 g g (by omega) (by omega) ?_ (by simp) ?_ ?_
  · intro a r _ _ h
    rw [fillLoop_length]
    · exact h
    · intro a2 s _ _
      exact List.length_set _ _ _
  · intro a ha
    have hfill :
        (fillLoop (fun a2 off => a2.set off (g % 2 ^ (invertKind O).width))
            (O.getD g 0) (O.getD (g + 1) 0) a).getD p 0
          = g % 2 ^ (invertKind O).width := by
      refine fillLoop_write
        (P := fun a2 => a2.length = O.getD (O.length - 1) 0) _
        (O.getD g 0) (O.getD (g + 1) 0) a p 0 p _ hp1 hp2 ?_ ha ?_ ?_
      · intro a2 r _ _ h
        rw [List.length_set]
        exact h
      · intro a2 h2
        exact getD_set_eq _ _ _ _ (by rw [h2]; exact hN)
      · intro a2 r hr _
        exact getD_set_ne _ _ _ (by omega)
    rw [hfill, hgw]
  · intro a r hr hr2
    apply fillLoop_frame
    intro a2 s hs1 _
    apply getD_set_ne
    have hmono : O.getD (g + 1) 0 ≤ O.getD r 0 :=
      getD_mono_of_pairwise hpair (by omega) (by omega)
    omega

theorem wfOffsets_map_range (n : Nat) (f : Nat → Nat) (hn : 0 < n)
    (hf0 : f 0 = 0) (hmono : ∀ i j, i ≤ j → j < n → f i ≤ f j) :
    WfOffsets ((List.range n).map f) := by
  constructor
  · obtain ⟨m, rfl⟩ : ∃ m, n = m + 1 := ⟨n - 1, by omega⟩
    rw [List.range_succ_eq_map]
    simp [hf0]
  · rw [List.pairwise_map, List.pairwise_iff_getElem]
    intro i j hi hj hij
    simp only [List.length_range] at hi hj
    simp only [List.getElem_range]
    exact hmono i j (by omega) hj

/-- Claim C2: under the precondition
`len(input) = size * (len(R) - 1)` with `size ≥ 1` and a well-formed
resolved offsets array `R`, `expandArrayToCoords` keeps the input's exact
element type, returns `size * R[last]` elements, and copies the per-geometry
channels to every coordinate of that geometry:
`output[c*size + i] = input[g*size + i]` whenever `R[g] ≤ c < R[g+1]` and
`i < size`; an empty geometry (`R[g] = R[g+1]`) admits no such `c`, so it
contributes no writes and neighbouring ranges keep their own values. -/
theorem expandArrayToCoords_spec (input : TypedArray) (size : Nat)
    (R : List Nat) (_hsize : 1 ≤ size) (hwf : WfOffsets R)
    (hlen : input.data.length = size * (R.length - 1))
    (hvalid : input.Valid) :
    (expandArrayToCoords input size R).kind = input.kind
  ∧ (expandArrayToCoords input size R).data.length
      = size * R.getD (R.length - 1) 0
  ∧ ∀ g, g + 1 < R.length → ∀ c, R.getD g 0 ≤ c → c < R.getD (g + 1) 0 →
      ∀ i, i < size →
        (expandArrayToCoords input size R).data.getD (c * size + i) 0
          = input.data.getD (g * size + i) 0 := by
  refine ⟨rfl, ?_, ?_⟩
  · rw [expandArrayToCoords_data_length]
    exact Nat.mul_comm _ _
  · intro g hg c hc1 hc2 i hisz
    have hcN : c < R.getD (R.length - 1) 0 :=
      lt_of_lt_of_le hc2 (getD_mono_of_pairwise hwf.2 (by omega) (by omega))
    have hread : g * size + i < input.data.length := by
      rw [hlen]
      have h1 : (g + 1) * size ≤ (R.length - 1) * size :=
        Nat.mul_le_mul_right _ (by omega)
      have h2 : (g + 1) * size = g * size + size := by ring
      have h3 : size * (R.length - 1) = (R.length - 1) * size :=
        Nat.mul_comm _ _
      omega
    have hq : c * size + i < R.getD (R.length - 1) 0 * size := by
      have h1 : (c + 1) * size ≤ R.getD (R.length - 1) 0 * size :=
        Nat.mul_le_mul_right _ (by omega)
      have h2 : (c + 1) * size = c * size + size := by ring
      omega
    have hv : input.kind.store (input.read (g * size + i))
        = input.data.getD (g * size + i) 0 := by
      show input.kind.store (input.data.getD (g * size + i) 0) = _
      rw [List.getD_eq_getElem _ _ hread]
      exact hvalid _ (List.getElem_mem hread)
    simp only [expandArrayToCoords]
    rw [← hv]
    refine fillLoop_write
      (P := fun a => a.length = R.getD (R.length - 1) 0 * size) _ 0
      (R.length - 1) _ (c * size + i) 0 g
      (input.kind.store (input.read (g * size + i))) (by omega) (by omega)
      ?_ (by simp) ?_ ?_
    · intro a r _ _ h
      rw [coordsLoop_length]
      exact h
    · intro a ha
      exact coordsLoop_getD_at size (R.getD g 0) (R.getD (g + 1) 0) c i _ a
        hc1 hc2 hisz (by rw [ha]; exact hq)
    · intro a r hr _
      refine coordsLoop_getD_frame size (R.getD r 0) (R.getD (r + 1) 0) c i
        _ a ?_ hisz
      have hmono : R.getD (g + 1) 0 ≤ R.getD r 0 :=
        getD_mono_of_pairwise hwf.2 (by omega) (by omega)
      omega

/-- Witness for C2 at the spec's concrete scenario 1: geometry 1 of offsets
[0, 2, 5] covers coordinate 3, which receives the value of input slot 1. -/
theorem expandArrayToCoords_spec_witness :
    (expandArrayToCoords ⟨.u8, [10, 20]⟩ 1 [0, 2, 5]).data.getD 3 0
      = (⟨.u8, [10, 20]⟩ : TypedArray).data.getD 1 0 :=
  (expandArrayToCoords_spec ⟨.u8, [10, 20]⟩ 1 [0, 2, 5] (by decide)
      (by decide) (by decide) (by decide)).2.2 1 (by decide) 3 (by decide)
    (by decide) 0 (by decide)

/-- Claim C4: for a well-formed offsets array (of `Int32Array`-compatible
length), `invertOffsets` fills position `p` with the unique source index `g`
whose range contains `p`: `invert(O)[p] = g` whenever `O[g] ≤ p < O[g+1]`,
and conversely every output position `p` satisfies
`O[invert(O)[p]] ≤ p < O[invert(O)[p] + 1]`. -/
theorem invertOffsets_roundTrip (O : List Nat) (hwf : WfOffsets O)
    (hlen : O.length < 2 ^ 32) :
    (∀ g, g + 1 < O.length → ∀ p, O.getD g 0 ≤ p → p < O.getD (g + 1) 0 →
        (invertOffsets O).data.getD p 0 = g)
  ∧ (∀ p, p < (invertOffsets O).data.length →
      O.getD ((invertOffsets O).data.getD p 0) 0 ≤ p
        ∧ p < O.getD ((invertOffsets O).data.getD p 0 + 1) 0) := by
  constructor
  · intro g hg p hp1 hp2
    exact invertOffsets_getD O hwf.2 hlen g hg p hp1 hp2
  · intro p hp
    rw [invertOffsets_data_length] at hp
    have hO0 : O.getD 0 0 = 0 := hwf.getD_zero
    have hne : O ≠ [] := hwf.ne_nil
    have hlen1 : 1 ≤ O.length := by
      rcases O with _ | ⟨x, t⟩
      · exact absurd rfl hne
      · simp
    have hlen2 : 2 ≤ O.length := by
      by_contra hcon
      have h1 : O.getD (O.length - 1) 0 = 0 := by
        rw [show O.length - 1 = 0 by omega, hO0]
      omega
    set g0 := Nat.findGreatest (fun g => O.getD g 0 ≤ p) (O.length - 2)
      with hg0def
    have hPg0 : O.getD g0 0 ≤ p := by
      rw [hg0def]
      exact Nat.findGreatest_spec (P := fun g => O.getD g 0 ≤ p)
        (Nat.zero_le _)
        (by show O.getD 0 0 ≤ p; rw [hO0]; exact Nat.zero_le p)
    have hg0le : g0 ≤ O.length - 2 := Nat.findGreatest_le _
    have hp2 : p < O.getD (g0 + 1) 0 := by
      by_cases hc : g0 = O.length - 2
      · have h1 : g0 + 1 = O.length - 1 := by omega
        rw [h1]
        exact hp
      · have hlt : ¬ O.getD (g0 + 1) 0 ≤ p := by
          apply Nat.findGreatest_is_greatest (P := fun g => O.getD g 0 ≤ p)
            (n := O.length - 2)
          · rw [← hg0def]
            omega
          · omega
        omega
    have hfill := invertOffsets_getD O hwf.2 hlen g0 (by omega) p hPg0 hp2
    rw [hfill]
    exact ⟨hPg0, hp2⟩

/-- Witness for C4: in invert([0, 2, 5]), position 3 lies in the range of
source index 1. -/
theorem invertOffsets_roundTrip_witness :
    (invertOffsets [0, 2, 5]).data.getD 3 0 = 1 :=
  (invertOffsets_roundTrip [0, 2, 5] (by decide) (by decide)).1 1 (by decide)
    3 (by decide) (by decide)

/-- Claim C6: over a chain of well-formed offsets arrays (each
non-decreasing with first element 0, each level's values indexing into the
next level), the resolved offsets array is itself well-formed:
non-decreasing with first element 0 (two-level polygon resolver and
three-level multi-polygon resolver). -/
theorem resolvedOffsets_wf (O1 O2 O3 : List Nat) (h1 : WfOffsets O1)
    (h2 : WfOffsets O2) (h3 : WfOffsets O3)
    (h12 : ∀ v ∈ O1, v < O2.length) (h23 : ∀ v ∈ O2, v < O3.length) :
    WfOffsets (getPolygonResolvedOffsets O1 O2)
  ∧ WfOffsets (getMultiPolygonResolvedOffsets O1 O2 O3) := by
  have hn : 0 < O1.length := by
    rcases O1 with _ | ⟨x, t⟩
    · exact absurd h1.1 (by simp)
    · simp
  constructor
  · unfold getPolygonResolvedOffsets
    apply wfOffsets_map_range _ _ hn
    · show O2.getD (O1.getD 0 0) 0 = 0
      rw [h1.getD_zero, h2.getD_zero]
    · intro i j hij hj
      apply getD_mono_of_pairwise h2.2
      · exact getD_mono_of_pairwise h1.2 hij hj
      · exact h12 _ (getD_mem_of_lt hj)
  · unfold getMultiPolygonResolvedOffsets
    apply wfOffsets_map_range _ _ hn
    · show O3.getD (O2.getD (O1.getD 0 0) 0) 0 = 0
      rw [h1.getD_zero, h2.getD_zero, h3.getD_zero]
    · intro i j hij hj
      apply getD_mono_of_pairwise h3.2
      · apply getD_mono_of_pairwise h2.2
        · exact getD_mono_of_pairwise h1.2 hij hj
        · exact h12 _ (getD_mem_of_lt hj)
      · exact h23 _ (getD_mem_of_lt (h12 _ (getD_mem_of_lt hj)))

/-- Witness for C6 at a concrete well-formed chain. -/
theorem resolvedOffsets_wf_witness :
    WfOffsets (getPolygonResolvedOffsets [0, 1, 3] [0, 2, 5, 6])
      ∧ WfOffsets (getMultiPolygonResolvedOffsets [0, 1, 3] [0, 2, 5, 6]
          [0, 1, 2, 3, 4, 5, 7]) :=
  resolvedOffsets_wf [0, 1, 3] [0, 2, 5, 6] [0, 1, 2, 3, 4, 5, 7]
    (by decide) (by decide) (by decide) (by decide) (by decide)

/-- Claim C1, evaluation at the failing input: on the resolved offsets array
[0, 2, 5] the buffer produced by `encodePickingColors` has length 5 (it is
allocated as `new Uint8ClampedArray(largestOffset)`), not 3 * 5 = 15 as the
claim requires, so only coordinate 0 carries a full RGB triple; the writes
aimed at byte positions 5 through 14 were silently dropped. -/
theorem encodePickingColors_buffer_clipped :
    (encodePickingColors [0, 2, 5] (fun i => (Int.ofNat i + 1, 7, 9))).data.length
        = 5
      ∧ (encodePickingColors [0, 2, 5] (fun i => (Int.ofNat i + 1, 7, 9))).data
        = [1, 7, 9, 1, 7] := by
  decide

/-- Claim C3, counterexample: for the 256-entry offsets array
`List.range 256` there are 255 source items, so the smallest unsigned width
representing `len(offsets) - 1 = 255` is 8 bits, yet `invertOffsets` (which
tests `offsets.length < 2^8`) selects a 16-bit element type. -/
theorem invertOffsets_width_counterexample :
    (invertOffsets (List.range 256)).kind.width = 16
      ∧ minUIntWidth (256 - 1) = 8 := by
  constructor
  · decide
  · decide

/-- Claim C3, amended: the element type of the output of `invertOffsets` is
the smallest unsigned integer width (8, 16 or 32 bits) that can represent
`len(offsets)` itself (the comparison being `len(offsets)` against the
thresholds 2^8 and 2^16); and `invertOffsets [0, 2, 5]` is an 8-bit unsigned
array equal to [0, 0, 1, 1, 1]. -/
theorem invertOffsets_width_amended :
    (∀ offsets : List Nat,
        (invertOffsets offsets).kind.width = minUIntWidth offsets.length)
      ∧ invertOffsets [0, 2, 5] = ⟨.u8, [0, 0, 1, 1, 1]⟩ := by
  constructor
  · intro offsets
    show (invertKind offsets).width = minUIntWidth offsets.length
    unfold invertKind minUIntWidth
    by_cases h1 : offsets.length < 2 ^ 8
    · rw [if_pos h1, if_pos h1]
      rfl
    · rw [if_neg h1, if_neg h1]
      by_cases h2 : offsets.length < 2 ^ 16
      · rw [if_pos h2, if_pos h2]
        rfl
      · rw [if_neg h2, if_neg h2]
        rfl
  · decide

/-- Claim C5: each offset resolver returns an array with the same length as
the outer offsets array whose entry `i` is the repeated indirection
`R[i] = innermost[ ... [outer[i]] ... ]` through the chain of offsets
arrays (two levels for the polygon and multi-line-string resolvers, three
levels for the multi-polygon resolver). -/
theorem resolvedOffsets_formula (O1 O2 O3 : List Nat) :
    ((getMultiLineStringResolvedOffsets O1 O2).length = O1.length
      ∧ ∀ i, i < O1.length →
          (getMultiLineStringResolvedOffsets O1 O2).getD i 0
            = O2.getD (O1.getD i 0) 0)
  ∧ ((getPolygonResolvedOffsets O1 O2).length = O1.length
      ∧ ∀ i, i < O1.length →
          (getPolygonResolvedOffsets O1 O2).getD i 0
            = O2.getD (O1.getD i 0) 0)
  ∧ ((getMultiPolygonResolvedOffsets O1 O2 O3).length = O1.length
      ∧ ∀ i, i < O1.length →
          (getMultiPolygonResolvedOffsets O1 O2 O3).getD i 0
            = O3.getD (O2.getD (O1.getD i 0) 0) 0) := by
  refine ⟨⟨?_, ?_⟩, ⟨?_, ?_⟩, ⟨?_, ?_⟩⟩
  · simp [getMultiLineStringResolvedOffsets]
  · intro i hi
    exact getD_map_range _ 0 hi
  · simp [getPolygonResolvedOffsets]
  · intro i hi
    exact getD_map_range _ 0 hi
  · simp [getMultiPolygonResolvedOffsets]
  · intro i hi
    exact getD_map_range _ 0 hi

/-- Witness for C5 at a concrete three-level chain. -/
theorem resolvedOffsets_formula_witness :
    (getMultiPolygonResolvedOffsets [0, 2] [0, 3, 7]
          [0, 1, 2, 3, 4, 5, 6, 9]).getD 1 0
      = ([0, 1, 2, 3, 4, 5, 6, 9] : List Nat).getD
          (([0, 3, 7] : List Nat).getD (([0, 2] : List Nat).getD 1 0) 0) 0 :=
  (resolvedOffsets_formula [0, 2] [0, 3, 7] [0, 1, 2, 3, 4, 5, 6, 9]).2.2.2 1
    (by decide)

/-- Claim C7: `assignAccessor` routes each attribute as the dispatcher
contract requires — an absent input performs no assignment; an Arrow Vector
input selects the chunk at `chunkIdx` and assigns its values into the
attribute set, expanded through `expandArrayToCoords` exactly when
`geomCoordOffsets` is supplied (fixed-size-list chunks keep their list size,
float chunks get size 1); any other input is assigned directly to the named
prop, leaving the attribute set untouched. -/
theorem assignAccessor_routing (props : LayerProps) (name : String)
    (idx : Nat) (offs : Option (List Nat)) :
    assignAccessor props name .absent idx offs = props
  ∧ (∀ v : Int,
      assignAccessor props name (.scalar v) idx offs
        = ⟨props.attributes, setKey props.scalarProps name v⟩)
  ∧ (∀ (chunks : List ColumnData) (s : Nat) (cv : TypedArray),
      chunks.getD idx .other = .fixedSizeList s cv →
        (∀ R, offs = some R →
          assignAccessor props name (.vector chunks) idx offs
            = ⟨setKey props.attributes name
                  ⟨expandArrayToCoords cv s R, s, some true⟩,
                props.scalarProps⟩)
        ∧ (offs = none →
          assignAccessor props name (.vector chunks) idx offs
            = ⟨setKey props.attributes name ⟨cv, s, some true⟩,
                props.scalarProps⟩))
  ∧ (∀ (chunks : List ColumnData) (fv : TypedArray),
      chunks.getD idx .other = .float fv →
        (∀ R, offs = some R →
          assignAccessor props name (.vector chunks) idx offs
            = ⟨setKey props.attributes name
                  ⟨expandArrayToCoords fv 1 R, 1, none⟩,
                props.scalarProps⟩)
        ∧ (offs = none →
          assignAccessor props name (.vector chunks) idx offs
            = ⟨setKey props.attributes name ⟨fv, 1, none⟩,
                props.scalarProps⟩)) := by
  refine ⟨rfl, fun v => rfl, ?_, ?_⟩
  · intro chunks s cv h
    constructor
    · intro R hR
      subst hR
      simp only [assignAccessor, h]
    · intro hR
      subst hR
      simp only [assignAccessor, h]
  · intro chunks fv h
    constructor
    · intro R hR
      subst hR
      simp only [assignAccessor, h]
    · intro hR
      subst hR
      simp only [assignAccessor, h]

/-- Witness for C7: a fixed-size-list chunk with a mapping supplied is
expanded and assigned into the attribute set. -/
theorem assignAccessor_routing_witness :
    assignAccessor ⟨[], []⟩ "getFillColor"
        (.vector [.fixedSizeList 3 ⟨.u8, [10, 20, 30]⟩]) 0 (some [0, 2])
      = ⟨setKey [] "getFillColor"
            ⟨expandArrayToCoords ⟨.u8, [10, 20, 30]⟩ 3 [0, 2], 3, some true⟩,
          []⟩ :=
  ((assignAccessor_routing ⟨[], []⟩ "getFillColor" 0 (some [0, 2])).2.2.1
      [.fixedSizeList 3 ⟨.u8, [10, 20, 30]⟩] 3 ⟨.u8, [10, 20, 30]⟩ rfl).1
    [0, 2] rfl

/-- Claim C9: when the selected chunk is neither FixedSizeList-typed nor
Float-typed (an integer column, or any other type), `assignAccessor` does
nothing: the props object is returned unchanged and no error is raised. -/
theorem assignAccessor_skips_unhandled (props : LayerProps) (name : String)
    (idx : Nat) (offs : Option (List Nat)) (chunks : List ColumnData) :
    (∀ vals : TypedArray, chunks.getD idx .other = .int vals →
        assignAccessor props name (.vector chunks) idx offs = props)
  ∧ (chunks.getD idx .other = .other →
        assignAccessor props name (.vector chunks) idx offs = props) := by
  constructor
  · intro vals h
    simp only [assignAccessor, h]
  · intro h
    simp only [assignAccessor, h]

/-- Witness for C9: an integer column leaves the props unchanged. -/
theorem assignAccessor_skips_unhandled_witness :
    assignAccessor ⟨[("k", ⟨⟨.u8, []⟩, 1, none⟩)], []⟩ "getWidth"
        (.vector [.int ⟨.i32, [1, 2]⟩]) 0 none
      = ⟨[("k", ⟨⟨.u8, []⟩, 1, none⟩)], []⟩ :=
  (assignAccessor_skips_unhandled ⟨[("k", ⟨⟨.u8, []⟩, 1, none⟩)], []⟩
      "getWidth" 0 none [.int ⟨.i32, [1, 2]⟩]).1 ⟨.i32, [1, 2]⟩ rfl

/-- Claim C10: a fixed-size-list vector accessor is always assigned with
`normalized := true`, whatever the child element type is, while a float
vector accessor is assigned with no `normalized` flag at all. -/
theorem assignAccessor_normalized_flag (props : LayerProps) (name : String)
    (idx : Nat) (offs : Option (List Nat)) (chunks : List ColumnData) :
    (∀ (s : Nat) (cv : TypedArray),
        chunks.getD idx .other = .fixedSizeList s cv →
          Option.map AttributeSpec.normalized
              (getKey (assignAccessor props name (.vector chunks) idx
                  offs).attributes name)
            = some (some true))
  ∧ (∀ fv : TypedArray, chunks.getD idx .other = .float fv →
        Option.map AttributeSpec.normalized
            (getKey (assignAccessor props name (.vector chunks) idx
                offs).attributes name)
          = some none) := by
  constructor
  · intro s cv h
    simp only [assignAccessor, h]
    rw [getKey_setKey]
    rfl
  · intro fv h
    simp only [assignAccessor, h]
    rw [getKey_setKey]
    rfl

/-- Witness for C10: a fixed-size list with a float (non-Uint8) child still
gets `normalized := true`. -/
theorem assignAccessor_normalized_flag_witness :
    Option.map AttributeSpec.normalized
        (getKey (assignAccessor ⟨[], []⟩ "getLineColor"
            (.vector [.fixedSizeList 4 ⟨.f32, [1, 2, 3, 4]⟩]) 0
            none).attributes "getLineColor")
      = some (some true) :=
  (assignAccessor_normalized_flag ⟨[], []⟩ "getLineColor" 0 none
      [.fixedSizeList 4 ⟨.f32, [1, 2, 3, 4]⟩]).1 4 ⟨.f32, [1, 2, 3, 4]⟩ rfl

/-- Claim C8: the picking index returned for a query is the dataset-global
row index — the chunk-local rendered index, mapped through the
inverted-offsets buffer when one is present (solid-polygon multi-part case),
plus the cumulative element count of the record batches preceding
`recordBatchIdx`. -/
theorem pickingIndex_global (lengths : List Nat) (b i : Nat)
    (inv : UIntArray) (hb : b ≤ lengths.length) :
    solidPolygonPickingIndex i (some inv) (tableOffsetsOf lengths) b
        = inv.data.getD i 0 + (lengths.take b).sum
  ∧ solidPolygonPickingIndex i none (tableOffsetsOf lengths) b
        = i + (lengths.take b).sum
  ∧ arcPickingIndex i (tableOffsetsOf lengths) b
        = i + (lengths.take b).sum := by
  have hoff : (tableOffsetsOf lengths).getD b 0 = (lengths.take b).sum := by
    unfold tableOffsetsOf
    exact getD_map_range _ 0 (by omega)
  refine ⟨?_, ?_, ?_⟩
  · show inv.data.getD i 0 + (tableOffsetsOf lengths).getD b 0 = _
    rw [hoff]
  · show i + (tableOffsetsOf lengths).getD b 0 = _
    rw [hoff]
  · show i + (tableOffsetsOf lengths).getD b 0 = _
    rw [hoff]

/-- Witness for C8 at a concrete two-batch table. -/
theorem pickingIndex_global_witness :
    solidPolygonPickingIndex 2 (some ⟨.u8, [0, 0, 1]⟩)
        (tableOffsetsOf [3, 2]) 1
      = (⟨.u8, [0, 0, 1]⟩ : UIntArray).data.getD 2 0
          + (([3, 2] : List Nat).take 1).sum :=
  (pickingIndex_global [3, 2] 1 2 ⟨.u8, [0, 0, 1]⟩ (by decide)).1

end GeoArrowSpec
